import Mathlib

/-!
Verification development for the algebra-playground dense-matrix engine
(src/include/Matrix.h, src/src/Matrix.cpp).

Modelling conventions (shallow embedding of the C++ source):
* C++ `double` is modelled as the exact rational numbers ℚ; the constant
  `EPSILON = 1e-10` becomes the exact rational 1/10^10.  Signed zero does
  not exist in ℚ (in ℚ we have -0 = 0 definitionally).
* C++ `int` is modelled as the unbounded `Int` at the construction
  interface (where negative values are meaningful) and as `Nat` for the
  internal row/column counts, which are non-negative after construction.
* A `Matrix` is a record of row count, column count and the flat row-major
  buffer, exactly as in the source (`_rows`, `_cols`, `_matrix`).
* C++ exceptions become `Except MatrixErr`; a thrown exception is the
  corresponding `.error` value.  The non-fatal size warning printed to
  stderr is a side effect with no observable value and is not modelled.
* Element access inside the algorithms is always in bounds in the source;
  it is modelled by a total read `Matrix.get` (default 0 out of range) and
  a total write `Matrix.set` (no-op out of range), mirroring the
  behaviour of `std::vector` indexing at valid indices.
* `cos`, `sin` and `M_PI` are transcendental and not exactly computable;
  the rotation definitions take them as parameters (`cosF`, `sinF`,
  `piQ`), so every theorem about rotation holds for arbitrary
  interpretations of these functions, in particular the real ones.
-/

namespace MatrixSpec

/-- The exception kinds of MatrixException.h. -/
inductive MatrixErr where
  | outOfBounds
  | dimensionMismatch
  | invalidDimensions
  | tooLarge
  | notSquare
  | singular
deriving DecidableEq, Repr

/-- SolveStatus from Matrix.h. -/
inductive SolveStatus where
  | unique
  | infinite
  | noSolution
deriving DecidableEq, Repr

/-- EPSILON = 1e-10 from Matrix.h, as an exact rational. -/
def EPSILON : ℚ := 1 / 10 ^ 10

/-- MATRIX_LIMIT_ERROR = 10'000'000 from Matrix.h. -/
def MATRIX_LIMIT_ERROR : Int := 10000000

/-- The Matrix data type: row count, column count, and the flat row-major
buffer (`_rows`, `_cols`, `_matrix` in the source). -/
structure Matrix where
  rows : Nat
  cols : Nat
  data : List ℚ
deriving DecidableEq, Repr

/-- The default constructor `Matrix() = default`, documented in the header
as creating an empty 0x0 matrix (the buffer is empty). -/
instance : Inhabited Matrix := ⟨⟨0, 0, []⟩⟩

/-- Decidable equality of fallible results, used to evaluate the model on
concrete inputs. -/
instance {ε α : Type} [DecidableEq ε] [DecidableEq α] : DecidableEq (Except ε α)
  | .error e, .error f =>
    if h : e = f then .isTrue (by rw [h])
    else .isFalse (fun hh => by cases hh; exact h rfl)
  | .error e, .ok b => .isFalse (fun hh => by cases hh)
  | .ok a, .error f => .isFalse (fun hh => by cases hh)
  | .ok a, .ok b =>
    if h : a = b then .isTrue (by rw [h])
    else .isFalse (fun hh => by cases hh; exact h rfl)

/-- Row-major element read: `_matrix[row * _cols + col]`. -/
def Matrix.get (M : Matrix) (row col : Nat) : ℚ :=
  M.data.getD (row * M.cols + col) 0

/-- Row-major element write: `_matrix[row * _cols + col] = v`. -/
def Matrix.set (M : Matrix) (row col : Nat) (v : ℚ) : Matrix :=
  { M with data := M.data.set (row * M.cols + col) v }

/-- The data-model invariant of the spec: positive dimensions and a buffer
of exactly rows*cols elements. -/
def Matrix.wf (M : Matrix) : Prop :=
  0 < M.rows ∧ 0 < M.cols ∧ M.data.length = M.rows * M.cols

instance (M : Matrix) : Decidable M.wf := by
  unfold Matrix.wf; infer_instance

/-- Two matrices have the same shape: equal dimensions and equal buffer
length.  All row operations of the engine preserve this. -/
def sameShape (M N : Matrix) : Prop :=
  M.rows = N.rows ∧ M.cols = N.cols ∧ M.data.length = N.data.length

/-- The sized constructor `Matrix::Matrix(int rows, int cols, double
initValue)`: rejects non-positive dimensions, then rejects
rows*cols ≥ 10'000'000, then fills the buffer with the initial value. -/
def Matrix.construct (rows cols : Int) (initValue : ℚ) : Except MatrixErr Matrix :=
  if rows ≤ 0 ∨ cols ≤ 0 then .error .invalidDimensions
  else if MATRIX_LIMIT_ERROR ≤ rows * cols then .error .tooLarge
  else .ok ⟨rows.toNat, cols.toNat, List.replicate (rows * cols).toNat initValue⟩

/-- `Matrix::identity(int size)`: explicit size check, then the sized
constructor (which may itself fail), then 1.0 down the diagonal. -/
def Matrix.identity (size : Int) : Except MatrixErr Matrix :=
  if size ≤ 0 then .error .invalidDimensions
  else do
    let M ← Matrix.construct size size 0
    return (List.range size.toNat).foldl (fun acc i => acc.set i i 1) M

/-- `Matrix::augment(const Matrix&)`: horizontal concatenation [A | B]. -/
def Matrix.augment (A B : Matrix) : Except MatrixErr Matrix :=
  if A.rows ≠ B.rows then .error .dimensionMismatch
  else do
    let R ← Matrix.construct A.rows (A.cols + B.cols) 0
    return (List.range A.rows).foldl (fun acc i =>
      let acc1 := (List.range A.cols).foldl (fun a j => a.set i j (A.get i j)) acc
      (List.range B.cols).foldl (fun a j => a.set i (A.cols + j) (B.get i j)) acc1) R

/-- `Matrix::swapRows(int,int)`: exchange two rows columnwise in place. -/
def Matrix.swapRows (M : Matrix) (row1 row2 : Nat) : Matrix :=
  if row1 = row2 then M
  else (List.range M.cols).foldl (fun acc j =>
    let t := acc.get row1 j
    (acc.set row1 j (acc.get row2 j)).set row2 j t) M

/-- `Matrix::transpose()`. -/
def Matrix.transpose (A : Matrix) : Except MatrixErr Matrix := do
  let R ← Matrix.construct A.cols A.rows 0
  return (List.range A.rows).foldl (fun acc row =>
    (List.range A.cols).foldl (fun a col => a.set col row (A.get row col)) acc) R

/-- `Matrix::operator+`: elementwise addition over the flat buffer after a
dimension check. -/
def Matrix.add (A B : Matrix) : Except MatrixErr Matrix :=
  if A.rows ≠ B.rows ∨ A.cols ≠ B.cols then .error .dimensionMismatch
  else .ok { A with
    data := (List.range A.data.length).map fun i => A.data.getD i 0 + B.data.getD i 0 }

/-- `Matrix::operator-`: elementwise subtraction over the flat buffer. -/
def Matrix.sub (A B : Matrix) : Except MatrixErr Matrix :=
  if A.rows ≠ B.rows ∨ A.cols ≠ B.cols then .error .dimensionMismatch
  else .ok { A with
    data := (List.range A.data.length).map fun i => A.data.getD i 0 - B.data.getD i 0 }

/-- `Matrix::operator*(double)`: scalar multiplication, no failure mode. -/
def Matrix.smul (A : Matrix) (scalar : ℚ) : Matrix :=
  { A with data := A.data.map (· * scalar) }

/-- Unary `Matrix::operator-`: scalar multiplication by -1. -/
def Matrix.negate (A : Matrix) : Matrix := A.smul (-1)

/-- `Matrix::operator*(const Matrix&)`: standard row-by-column product. -/
def Matrix.mul (A B : Matrix) : Except MatrixErr Matrix :=
  if A.cols ≠ B.rows then .error .dimensionMismatch
  else do
    let R ← Matrix.construct A.rows B.cols 0
    return (List.range A.rows).foldl (fun acc row =>
      (List.range B.cols).foldl (fun acc2 col =>
        acc2.set row col
          ((List.range A.cols).foldl (fun s k => s + A.get row k * B.get k col) 0)) acc) R

/-- Partial pivoting at position (row i0, column c): the row index in
[i0, rows) carrying the largest absolute value in column c, scanning
downward with a strict comparison (ties keep the earlier row). -/
def pivotRowAt (E : Matrix) (i0 c : Nat) : Nat :=
  ((List.range' (i0 + 1) (E.rows - (i0 + 1))).foldl
    (fun (p : ℚ × Nat) k =>
      let v := |E.get k c|
      if p.1 < v then (v, k) else p)
    (|E.get i0 c|, i0)).2

/-- Row combination `row k += c * row i`, applied to columns [jStart, cols). -/
def rowAddMul (M : Matrix) (k i : Nat) (c : ℚ) (jStart : Nat) : Matrix :=
  (List.range' jStart (M.cols - jStart)).foldl
    (fun acc j => acc.set k j (acc.get k j + c * acc.get i j)) M

/-- Row combination `row k -= c * row i`, applied to columns [jStart, cols). -/
def rowSubMul (M : Matrix) (k i : Nat) (c : ℚ) (jStart : Nat) : Matrix :=
  (List.range' jStart (M.cols - jStart)).foldl
    (fun acc j => acc.set k j (acc.get k j - c * acc.get i j)) M

/-- State threaded through the elimination loops: the working matrix, the
optional companion (right-hand side) and the row-swap counter. -/
structure ElimState where
  result : Matrix
  right : Option Matrix
  swapCount : Nat
deriving DecidableEq, Repr

/-- Eliminate below a pivot at (row r, column c): for every row k in
(r, rows), add `-E(k,c)/E(r,c)` times row r to row k (columns ≥ c), and the
same combination to all columns of the companion. -/
def elimBelowAt (E : Matrix) (right : Option Matrix) (r c : Nat) :
    Matrix × Option Matrix :=
  (List.range' (r + 1) (E.rows - (r + 1))).foldl
    (fun st k =>
      let coeff := -(st.1.get k c) / st.1.get r c
      (rowAddMul st.1 k r coeff c, st.2.map (fun R => rowAddMul R k r coeff 0)))
    (E, right)

/-- The row swap of a forward-elimination step: when the pivot row found by
partial pivoting differs from row i, swap the two rows (mirrored on the
companion) and count the swap. -/
def feSwap (st : ElimState) (i maxRow : Nat) : ElimState :=
  if maxRow ≠ i then
    { result := st.result.swapRows i maxRow,
      right := st.right.map (fun R => R.swapRows i maxRow),
      swapCount := st.swapCount + 1 }
  else st

/-- The elimination below the pivot of a forward-elimination step, packaged
on the threaded state. -/
def feElim (st : ElimState) (i : Nat) : ElimState :=
  { result := (elimBelowAt st.result st.right i i).1,
    right := (elimBelowAt st.result st.right i i).2,
    swapCount := st.swapCount }

/-- One iteration of the forward-elimination loop of
`Matrix::forwardElimination`, at diagonal position i: partial pivoting over
rows [i, rows) in column i; a near-zero pivot either raises Singular
(when `throwOnZeroPivot`) or leaves the state untouched; otherwise swap the
pivot row up if needed (counting the swap, mirrored on the companion) and
eliminate below the pivot. -/
def feStep (throwOnZeroPivot : Bool) (st : ElimState) (i : Nat) :
    Except MatrixErr ElimState :=
  if |st.result.get (pivotRowAt st.result i i) i| < EPSILON then
    if throwOnZeroPivot then .error .singular else .ok st
  else
    .ok (feElim (feSwap st i (pivotRowAt st.result i i)) i)

/-- `Matrix::forwardElimination`: the loop `for i in [0, min(rows, cols))`
over `feStep`, starting from a working copy of the matrix, the companion
and a zero swap counter. -/
def Matrix.forwardElimination (A : Matrix) (right : Option Matrix)
    (throwOnZeroPivot : Bool) : Except MatrixErr ElimState :=
  (List.range (min A.rows A.cols)).foldlM (feStep throwOnZeroPivot)
    ⟨A, right, 0⟩

/-- Pivot-column search of the full-reduction phase: the first column j
with |E(i,j)| > EPSILON, none for an (all-near-)zero row. -/
def findPivotCol (E : Matrix) (i : Nat) : Option Nat :=
  (List.range E.cols).find? (fun j => decide (EPSILON < |E.get i j|))

/-- Row normalization of the full-reduction pass: divide row i (from the
pivot column rightward) and the whole companion row i by the pivot value,
which is read before the division starts. -/
def normRow (st : Matrix × Option Matrix) (i pivotCol : Nat) :
    Matrix × Option Matrix :=
  ((List.range' pivotCol (st.1.cols - pivotCol)).foldl
      (fun acc j => acc.set i j (acc.get i j / st.1.get i pivotCol)) st.1,
   st.2.map (fun R => (List.range R.cols).foldl
      (fun acc j => acc.set i j (acc.get i j / st.1.get i pivotCol)) R))

/-- Elimination of one other row k during the full-reduction pass: skip the
pivot row itself and rows whose entry in the pivot column is below EPSILON;
otherwise subtract that multiple of the (already normalized) row i. -/
def frElimStep (st2 : Matrix × Option Matrix) (i pivotCol k : Nat) :
    Matrix × Option Matrix :=
  if k = i then st2
  else if |st2.1.get k pivotCol| < EPSILON then st2
  else (rowSubMul st2.1 k i (st2.1.get k pivotCol) pivotCol,
        st2.2.map (fun R => rowSubMul R k i (st2.1.get k pivotCol) 0))

/-- One iteration of the full-reduction loop of
`Matrix::gaussianElimination`: locate the leading entry of row i; if there
is one, normalize row i by it (companion rows too), then for every other
row k whose entry in the pivot column is not below EPSILON, subtract that
multiple of row i (columns ≥ pivot column; all columns of the companion). -/
def frStep (st : Matrix × Option Matrix) (i : Nat) : Matrix × Option Matrix :=
  match findPivotCol st.1 i with
  | none => st
  | some pivotCol =>
      (List.range (normRow st i pivotCol).1.rows).foldl
        (fun st2 k => frElimStep st2 i pivotCol k) (normRow st i pivotCol)

/-- The full-reduction pass over every row, repackaged on the threaded
state (the swap count of the forward phase is preserved). -/
def frRun (st : ElimState) : ElimState :=
  { result := ((List.range st.result.rows).foldl frStep (st.result, st.right)).1,
    right := ((List.range st.result.rows).foldl frStep (st.result, st.right)).2,
    swapCount := st.swapCount }

/-- `Matrix::gaussianElimination(Matrix* right, bool fullReduction, int*
swapCount)`: forward elimination (throwing on a near-zero pivot exactly
when a companion is present or full reduction is demanded), followed, when
full reduction is demanded, by the row-normalization and
eliminate-everywhere pass; the swap count of the forward phase is kept. -/
def Matrix.gaussianElimination (A : Matrix) (right : Option Matrix)
    (fullReduction : Bool) : Except MatrixErr ElimState :=
  match A.forwardElimination right (right.isSome || fullReduction) with
  | .error e => .error e
  | .ok st => if !fullReduction then .ok st else .ok (frRun st)

/-- Product of the first n diagonal entries, folded left as the source
loop does. -/
def diagProd (E : Matrix) (n : Nat) : ℚ :=
  (List.range n).foldl (fun d i => d * E.get i i) 1

/-- The snap-to-zero of `Matrix::determinant`: values within EPSILON of
zero are replaced by exact zero. -/
def snapZero (x : ℚ) : ℚ := if |x| < EPSILON then 0 else x

/-- The sign adjustment of `Matrix::determinant`: an odd swap count negates
(guarding a zero value against becoming a negative zero). -/
def detSign (swapCount : Nat) (d : ℚ) : ℚ :=
  if swapCount % 2 ≠ 0 then (if d ≠ 0 then -d else 0) else d

/-- `Matrix::determinant()`: square check, forward elimination without a
companion and without throwing, product of the diagonal, snap-to-zero
within EPSILON, sign flip for an odd swap count. -/
def Matrix.determinant (A : Matrix) : Except MatrixErr ℚ :=
  if A.rows ≠ A.cols then .error .notSquare
  else
    match A.gaussianElimination none false with
    | .error e => .error e
    | .ok st => .ok (detSign st.swapCount (snapZero (diagProd st.result A.rows)))

/-- Number of rows of the echelon form holding at least one entry of
magnitude above EPSILON. -/
def nonZeroRowCount (E : Matrix) : Nat :=
  ((List.range E.rows).filter
    (fun i => (List.range E.cols).any (fun j => decide (EPSILON < |E.get i j|)))).length

/-- Number of columns of the echelon form holding at least one entry of
magnitude above EPSILON. -/
def nonZeroColCount (E : Matrix) : Nat :=
  ((List.range E.cols).filter
    (fun j => (List.range E.rows).any (fun i => decide (EPSILON < |E.get i j|)))).length

/-- `Matrix::rank()`: forward elimination without companion and without
throwing, then the minimum of the non-zero-row count and the
non-zero-column count of the echelon form.  (The `.error` branch is
unreachable: without `throwOnZeroPivot` the elimination never fails; see
`forwardElimination_noThrow`.) -/
def Matrix.rank (A : Matrix) : Nat :=
  match A.forwardElimination none false with
  | .error _ => 0
  | .ok st => min (nonZeroRowCount st.result) (nonZeroColCount st.result)

/-- SolveResult from Matrix.h: a status and the solution vector, the
latter meaningful only when the status is `unique` (otherwise the
default-constructed empty matrix is attached). -/
structure SolveResult where
  status : SolveStatus
  x : Matrix
deriving DecidableEq, Repr

/-- `Matrix::solve(const Matrix& b)`: dimension guard, the two rank
computations, then the three-way classification in source order; in the
last branch the full reduction runs with a copy of b as companion and the
transformed companion is returned as the solution. -/
def Matrix.solve (A b : Matrix) : Except MatrixErr SolveResult :=
  if A.rows ≠ b.rows ∨ b.cols ≠ 1 then .error .dimensionMismatch
  else
    match A.augment b with
    | .error e => .error e
    | .ok aug =>
      if A.rank < aug.rank then .ok ⟨.noSolution, default⟩
      else if A.rank < A.cols then .ok ⟨.infinite, default⟩
      else
        match A.gaussianElimination (some b) true with
        | .error e => .error e
        | .ok st => .ok ⟨.unique, st.right.getD default⟩

/-- `Matrix::inverse()`: square check, full reduction of [A | I] with
throwing enabled, extraction of the right half. -/
def Matrix.inverse (A : Matrix) : Except MatrixErr Matrix :=
  if A.rows ≠ A.cols then .error .notSquare
  else do
    let I ← Matrix.identity A.rows
    let aug ← A.augment I
    let st ← aug.gaussianElimination none true
    let R ← Matrix.construct A.rows A.cols 0
    return (List.range A.rows).foldl (fun acc i =>
      (List.range A.cols).foldl (fun a j => a.set i j (st.result.get i (A.cols + j))) acc) R

/-- `Matrix::XRotationMatrix(double)`: rotation about the X axis; `cosF`,
`sinF` and `piQ` stand for cos, sin and M_PI (see the header comment). -/
def Matrix.XRotationMatrix (cosF sinF : ℚ → ℚ) (piQ : ℚ) (angleDegrees : ℚ) : Matrix :=
  let r := angleDegrees * piQ / 180
  ⟨3, 3, [1, 0, 0,
          0, cosF r, -sinF r,
          0, sinF r, cosF r]⟩

/-- `Matrix::YRotationMatrix(double)`: rotation about the Y axis. -/
def Matrix.YRotationMatrix (cosF sinF : ℚ → ℚ) (piQ : ℚ) (angleDegrees : ℚ) : Matrix :=
  let r := angleDegrees * piQ / 180
  ⟨3, 3, [cosF r, 0, sinF r,
          0, 1, 0,
          -sinF r, 0, cosF r]⟩

/-- `Matrix::ZRotationMatrix(double)`: rotation about the Z axis. -/
def Matrix.ZRotationMatrix (cosF sinF : ℚ → ℚ) (piQ : ℚ) (angleDegrees : ℚ) : Matrix :=
  let r := angleDegrees * piQ / 180
  ⟨3, 3, [cosF r, -sinF r, 0,
          sinF r, cosF r, 0,
          0, 0, 1]⟩

/-- `Matrix::createRotationMatrix`: the product rotationZ * rotationY *
rotationX (left associated, as the source expression). -/
def Matrix.createRotationMatrix (cosF sinF : ℚ → ℚ) (piQ : ℚ)
    (angleDegreesX angleDegreesY angleDegreesZ : ℚ) : Except MatrixErr Matrix := do
  let rotationX := Matrix.XRotationMatrix cosF sinF piQ angleDegreesX
  let rotationY := Matrix.YRotationMatrix cosF sinF piQ angleDegreesY
  let rotationZ := Matrix.ZRotationMatrix cosF sinF piQ angleDegreesZ
  let zy ← rotationZ.mul rotationY
  zy.mul rotationX

/-- `Matrix::rotate3D`: build the composed rotation and left-multiply the
vector by it. -/
def Matrix.rotate3D (v : Matrix) (cosF sinF : ℚ → ℚ) (piQ : ℚ)
    (angleDegreesX angleDegreesY angleDegreesZ : ℚ) : Except MatrixErr Matrix := do
  let rotation ← Matrix.createRotationMatrix cosF sinF piQ
    angleDegreesX angleDegreesY angleDegreesZ
  rotation.mul v

/-- One column of forward elimination as the specification words it, for
comparison with the source: the pivot search runs over rows [r, rows) of
the current column, and on a near-zero pivot the column is skipped without
incrementing the row progress r. -/
def rowHeldStep (st : Matrix × Nat) (c : Nat) : Matrix × Nat :=
  if st.1.rows ≤ st.2 then st
  else if |st.1.get (pivotRowAt st.1 st.2 c) c| < EPSILON then st
  else ((elimBelowAt (st.1.swapRows st.2 (pivotRowAt st.1 st.2 c)) none st.2 c).1,
        st.2 + 1)

/-- Forward elimination exactly as the specification sentence of claim C2
describes it (a second definition following the spec words, to be compared
with the source-derived `Matrix.forwardElimination`): scan the columns left
to right, holding the current row fixed across a skipped column. -/
def forwardEliminationRowHeld (A : Matrix) : Matrix :=
  ((List.range A.cols).foldl rowHeldStep (A, 0)).1

/-! Shape preservation: every row operation of the engine keeps the
dimensions and the buffer length of the matrices it touches. -/

theorem sameShape_refl (M : Matrix) : sameShape M M := ⟨rfl, rfl, rfl⟩

theorem sameShape_trans {M N P : Matrix} (h1 : sameShape M N)
    (h2 : sameShape N P) : sameShape M P :=
  ⟨h1.1.trans h2.1, h1.2.1.trans h2.2.1, h1.2.2.trans h2.2.2⟩

theorem set_sameShape (M : Matrix) (r c : Nat) (v : ℚ) :
    sameShape (M.set r c v) M :=
  ⟨rfl, rfl, by simp [Matrix.set]⟩

theorem wf_of_sameShape {M N : Matrix} (h : sameShape M N) (hw : N.wf) : M.wf := by
  obtain ⟨h1, h2, h3⟩ := h
  exact ⟨h1 ▸ hw.1, h2 ▸ hw.2.1, by rw [h3, h1, h2]; exact hw.2.2⟩

theorem foldl_sameShape {α : Type} (f : Matrix → α → Matrix)
    (h : ∀ M a, sameShape (f M a) M) :
    ∀ (l : List α) (M : Matrix), sameShape (l.foldl f M) M := by
  intro l
  induction l with
  | nil => intro M; exact sameShape_refl M
  | cons a t ih => intro M; exact sameShape_trans (ih (f M a)) (h M a)

theorem swapRows_sameShape (M : Matrix) (r1 r2 : Nat) :
    sameShape (M.swapRows r1 r2) M := by
  unfold Matrix.swapRows
  split
  · exact sameShape_refl M
  · exact foldl_sameShape _
      (fun _ _ => sameShape_trans (set_sameShape _ _ _ _) (set_sameShape _ _ _ _)) _ M

theorem rowAddMul_sameShape (M : Matrix) (k i : Nat) (c : ℚ) (jStart : Nat) :
    sameShape (rowAddMul M k i c jStart) M :=
  foldl_sameShape _ (fun _ _ => set_sameShape _ _ _ _) _ M

theorem rowSubMul_sameShape (M : Matrix) (k i : Nat) (c : ℚ) (jStart : Nat) :
    sameShape (rowSubMul M k i c jStart) M :=
  foldl_sameShape _ (fun _ _ => set_sameShape _ _ _ _) _ M

/-- Shape relation lifted to the optional companion matrix. -/
def optShape (o1 o2 : Option Matrix) : Prop :=
  (o1 = none ∧ o2 = none) ∨ ∃ R S, o1 = some R ∧ o2 = some S ∧ sameShape R S

theorem optShape_refl (o : Option Matrix) : optShape o o := by
  cases o with
  | none => exact Or.inl ⟨rfl, rfl⟩
  | some R => exact Or.inr ⟨R, R, rfl, rfl, sameShape_refl R⟩

theorem optShape_trans {o1 o2 o3 : Option Matrix} (h1 : optShape o1 o2)
    (h2 : optShape o2 o3) : optShape o1 o3 := by
  rcases h1 with ⟨e1, e2⟩ | ⟨R, S, e1, e2, hs⟩
  · rcases h2 with ⟨f1, f2⟩ | ⟨T, U, f1, f2, ht⟩
    · exact Or.inl ⟨e1, f2⟩
    · rw [e2] at f1; cases f1
  · rcases h2 with ⟨f1, f2⟩ | ⟨T, U, f1, f2, ht⟩
    · rw [e2] at f1; cases f1
    · rw [e2] at f1
      cases f1
      exact Or.inr ⟨R, U, e1, f2, sameShape_trans hs ht⟩

theorem optShape_map {o : Option Matrix} (f : Matrix → Matrix)
    (h : ∀ R, sameShape (f R) R) : optShape (o.map f) o := by
  cases o with
  | none => exact Or.inl ⟨rfl, rfl⟩
  | some R => exact Or.inr ⟨f R, R, rfl, rfl, h R⟩

theorem foldl_pairShape {α : Type}
    (f : (Matrix × Option Matrix) → α → (Matrix × Option Matrix))
    (h : ∀ p a, sameShape (f p a).1 p.1 ∧ optShape (f p a).2 p.2) :
    ∀ (l : List α) (p : Matrix × Option Matrix),
      sameShape (l.foldl f p).1 p.1 ∧ optShape (l.foldl f p).2 p.2 := by
  intro l
  induction l with
  | nil => intro p; exact ⟨sameShape_refl _, optShape_refl _⟩
  | cons a t ih =>
      intro p
      exact ⟨sameShape_trans (ih (f p a)).1 (h p a).1,
             optShape_trans (ih (f p a)).2 (h p a).2⟩

theorem elimBelowAt_shape (E : Matrix) (right : Option Matrix) (r c : Nat) :
    sameShape (elimBelowAt E right r c).1 E ∧
      optShape (elimBelowAt E right r c).2 right := by
  unfold elimBelowAt
  exact foldl_pairShape _
    (fun p a => ⟨rowAddMul_sameShape _ _ _ _ _,
                 optShape_map _ (fun R => rowAddMul_sameShape _ _ _ _ _)⟩) _ _

theorem feSwap_shape (st : ElimState) (i maxRow : Nat) :
    sameShape (feSwap st i maxRow).result st.result ∧
      optShape (feSwap st i maxRow).right st.right := by
  unfold feSwap
  split
  · exact ⟨swapRows_sameShape _ _ _,
      optShape_map _ (fun R => swapRows_sameShape _ _ _)⟩
  · exact ⟨sameShape_refl _, optShape_refl _⟩

theorem feElim_shape (st : ElimState) (i : Nat) :
    sameShape (feElim st i).result st.result ∧
      optShape (feElim st i).right st.right :=
  ⟨(elimBelowAt_shape _ _ _ _).1, (elimBelowAt_shape _ _ _ _).2⟩

theorem feStep_shape {flag : Bool} {st st2 : ElimState} {i : Nat}
    (h : feStep flag st i = .ok st2) :
    sameShape st2.result st.result ∧ optShape st2.right st.right := by
  unfold feStep at h
  split at h
  · split at h
    · cases h
    · cases h; exact ⟨sameShape_refl _, optShape_refl _⟩
  · cases h
    exact ⟨sameShape_trans (feElim_shape _ _).1 (feSwap_shape _ _ _).1,
           optShape_trans (feElim_shape _ _).2 (feSwap_shape _ _ _).2⟩

theorem foldlM_feStep_shape {flag : Bool} :
    ∀ (l : List Nat) (st st2 : ElimState),
      l.foldlM (feStep flag) st = .ok st2 →
      sameShape st2.result st.result ∧ optShape st2.right st.right := by
  intro l
  induction l with
  | nil =>
      intro st st2 h
      cases h
      exact ⟨sameShape_refl _, optShape_refl _⟩
  | cons a t ih =>
      intro st st2 h
      rw [List.foldlM_cons] at h
      cases e : feStep flag st a with
      | error msg => rw [e] at h; cases h
      | ok st1 =>
          rw [e] at h
          have h2 := ih st1 st2 h
          have h1 := feStep_shape e
          exact ⟨sameShape_trans h2.1 h1.1, optShape_trans h2.2 h1.2⟩

theorem forwardElimination_shape {A : Matrix} {right : Option Matrix}
    {flag : Bool} {st : ElimState}
    (h : A.forwardElimination right flag = .ok st) :
    sameShape st.result A ∧ optShape st.right right :=
  foldlM_feStep_shape _ _ _ h

theorem frElimStep_shape (st2 : Matrix × Option Matrix) (i pivotCol k : Nat) :
    sameShape (frElimStep st2 i pivotCol k).1 st2.1 ∧
      optShape (frElimStep st2 i pivotCol k).2 st2.2 := by
  unfold frElimStep
  split
  · exact ⟨sameShape_refl _, optShape_refl _⟩
  · split
    · exact ⟨sameShape_refl _, optShape_refl _⟩
    · exact ⟨rowSubMul_sameShape _ _ _ _ _,
        optShape_map _ (fun R => rowSubMul_sameShape _ _ _ _ _)⟩

theorem normRow_shape (st : Matrix × Option Matrix) (i pivotCol : Nat) :
    sameShape (normRow st i pivotCol).1 st.1 ∧
      optShape (normRow st i pivotCol).2 st.2 := by
  unfold normRow
  exact ⟨foldl_sameShape _ (fun _ _ => set_sameShape _ _ _ _) _ _,
         optShape_map _ (fun R => foldl_sameShape _ (fun _ _ => set_sameShape _ _ _ _) _ R)⟩

theorem frStep_shape (st : Matrix × Option Matrix) (i : Nat) :
    sameShape (frStep st i).1 st.1 ∧ optShape (frStep st i).2 st.2 := by
  unfold frStep
  cases e : findPivotCol st.1 i with
  | none => exact ⟨sameShape_refl _, optShape_refl _⟩
  | some pivotCol =>
      have h1 := foldl_pairShape (fun st2 k => frElimStep st2 i pivotCol k)
        (fun p a => frElimStep_shape p i pivotCol a)
        (List.range (normRow st i pivotCol).1.rows) (normRow st i pivotCol)
      exact ⟨sameShape_trans h1.1 (normRow_shape st i pivotCol).1,
             optShape_trans h1.2 (normRow_shape st i pivotCol).2⟩

theorem foldl_frStep_shape (l : List Nat) (p : Matrix × Option Matrix) :
    sameShape (l.foldl frStep p).1 p.1 ∧ optShape (l.foldl frStep p).2 p.2 :=
  foldl_pairShape _ (fun q a => frStep_shape q a) l p

theorem frRun_shape (st : ElimState) :
    sameShape (frRun st).result st.result ∧ optShape (frRun st).right st.right :=
  foldl_frStep_shape (List.range st.result.rows) (st.result, st.right)

theorem gaussianElimination_shape {A : Matrix} {right : Option Matrix}
    {full : Bool} {st : ElimState}
    (h : A.gaussianElimination right full = .ok st) :
    sameShape st.result A ∧ optShape st.right right := by
  unfold Matrix.gaussianElimination at h
  cases e : A.forwardElimination right (right.isSome || full) with
  | error msg => rw [e] at h; cases h
  | ok st1 =>
      rw [e] at h
      have h1 := forwardElimination_shape e
      cases full with
      | false => cases h; exact h1
      | true =>
          cases h
          exact ⟨sameShape_trans (frRun_shape st1).1 h1.1,
                 optShape_trans (frRun_shape st1).2 h1.2⟩

/-- Without `throwOnZeroPivot` a forward-elimination step cannot fail. -/
theorem feStep_false_ok (st : ElimState) (i : Nat) :
    ∃ st2, feStep false st i = .ok st2 := by
  unfold feStep
  split
  · exact ⟨st, rfl⟩
  · exact ⟨_, rfl⟩

theorem ebind_ok {ε α β : Type} (a : α) (f : α → Except ε β) :
    (Except.ok a >>= f) = f a := rfl

theorem ebind_error {ε α β : Type} (e : ε) (f : α → Except ε β) :
    ((Except.error e : Except ε α) >>= f) = Except.error e := rfl

theorem epure_eq_ok {ε α : Type} (a : α) : (pure a : Except ε α) = .ok a := rfl

theorem getD_replicate_list (n : Nat) (a d : ℚ) (i : Nat) :
    (List.replicate n a).getD i d = if i < n then a else d := by
  induction n generalizing i with
  | zero => simp
  | succ m ih =>
      cases i with
      | zero => simp [List.replicate]
      | succ j =>
          rw [List.replicate_succ, List.getD_cons_succ, ih]
          simp [Nat.succ_lt_succ_iff]

theorem getD_set_list (l : List ℚ) (i j : Nat) (v d : ℚ) :
    (l.set i v).getD j d = if j = i ∧ i < l.length then v else l.getD j d := by
  induction l generalizing i j with
  | nil => simp
  | cons a t ih =>
      cases i with
      | zero =>
          cases j with
          | zero => simp
          | succ j2 => simp
      | succ i2 =>
          cases j with
          | zero => simp
          | succ j2 => simpa [List.set, Nat.succ_lt_succ_iff] using ih i2 j2

theorem flatIndex_lt {rows cols r c : Nat} (hr : r < rows) (hc : c < cols) :
    r * cols + c < rows * cols :=
  calc r * cols + c < r * cols + cols := Nat.add_lt_add_left hc _
    _ = (r + 1) * cols := (Nat.succ_mul r cols).symm
    _ ≤ rows * cols := Nat.mul_le_mul_right cols hr

theorem flatIndex_inj {cols r c r2 c2 : Nat} (hc : c < cols) (hc2 : c2 < cols) :
    r2 * cols + c2 = r * cols + c ↔ r2 = r ∧ c2 = c := by
  constructor
  · intro h
    have hpos : 0 < cols := Nat.lt_of_le_of_lt (Nat.zero_le _) hc
    rw [Nat.mul_comm r2 cols, Nat.mul_comm r cols] at h
    have e1 : (cols * r2 + c2) / cols = r2 := by
      rw [Nat.mul_add_div hpos, Nat.div_eq_of_lt hc2, Nat.add_zero]
    have e2 : (cols * r + c) / cols = r := by
      rw [Nat.mul_add_div hpos, Nat.div_eq_of_lt hc, Nat.add_zero]
    have hr : r2 = r := by rw [← e1, ← e2, h]
    subst hr
    exact ⟨rfl, Nat.add_left_cancel h⟩
  · rintro ⟨rfl, rfl⟩; rfl

theorem get_set (M : Matrix) (r c r2 c2 : Nat) (v : ℚ)
    (hc : c < M.cols) (hc2 : c2 < M.cols) :
    (M.set r c v).get r2 c2 =
      if r2 = r ∧ c2 = c ∧ r * M.cols + c < M.data.length then v
      else M.get r2 c2 := by
  show (M.data.set (r * M.cols + c) v).getD (r2 * M.cols + c2) 0 = _
  rw [getD_set_list]
  by_cases h1 : r2 = r ∧ c2 = c
  · obtain ⟨rfl, rfl⟩ := h1
    by_cases h2 : r2 * M.cols + c2 < M.data.length
    · rw [if_pos ⟨rfl, h2⟩, if_pos ⟨rfl, rfl, h2⟩]
    · rw [if_neg (fun hh => h2 hh.2), if_neg (fun hh => h2 hh.2.2)]
      rfl
  · rw [if_neg, if_neg]
    · rfl
    · intro hh; exact h1 ⟨hh.1, hh.2.1⟩
    · intro hh; exact h1 ((flatIndex_inj hc hc2).1 hh.1)

theorem foldlM_feStep_false_ok :
    ∀ (l : List Nat) (st : ElimState), ∃ st2, l.foldlM (feStep false) st = .ok st2 := by
  intro l
  induction l with
  | nil => intro st; exact ⟨st, rfl⟩
  | cons a t ih =>
      intro st
      obtain ⟨st1, h1⟩ := feStep_false_ok st a
      obtain ⟨st2, h2⟩ := ih st1
      refine ⟨st2, ?_⟩
      rw [List.foldlM_cons, h1]
      exact h2

/-- Without `throwOnZeroPivot`, forward elimination never fails: the only
error branch of the loop is guarded by that flag. -/
theorem forwardElimination_noThrow (A : Matrix) (right : Option Matrix) :
    ∃ st, A.forwardElimination right false = .ok st :=
  foldlM_feStep_false_ok _ _

/-! Well-formedness of the matrices produced by the public operations. -/

theorem construct_wf {rows cols : Int} {v : ℚ} {M : Matrix}
    (h : Matrix.construct rows cols v = .ok M) : M.wf := by
  unfold Matrix.construct at h
  split at h
  · cases h
  · split at h
    · cases h
    · cases h
      rename_i h1 h2
      push_neg at h1
      obtain ⟨hr, hc⟩ := h1
      refine ⟨by simpa using hr, by simpa using hc, ?_⟩
      show (List.replicate (rows * cols).toNat v).length = rows.toNat * cols.toNat
      rw [List.length_replicate]
      obtain ⟨a, rfl⟩ := Int.eq_ofNat_of_zero_le (le_of_lt hr)
      obtain ⟨b, rfl⟩ := Int.eq_ofNat_of_zero_le (le_of_lt hc)
      have hab : ((a : Int) * (b : Int)) = ((a * b : Nat) : Int) := by push_cast; ring
      rw [hab, Int.toNat_natCast]
      simp

theorem identity_wf {size : Int} {M : Matrix}
    (h : Matrix.identity size = .ok M) : M.wf := by
  unfold Matrix.identity at h
  split at h
  · cases h
  · cases e : Matrix.construct size size 0 with
    | error msg => rw [e, ebind_error] at h; cases h
    | ok M0 =>
        rw [e, ebind_ok, epure_eq_ok] at h
        cases h
        exact wf_of_sameShape
          (foldl_sameShape _ (fun _ _ => set_sameShape _ _ _ _) _ _)
          (construct_wf e)

theorem augment_wf {A B M : Matrix} (h : A.augment B = .ok M) : M.wf := by
  unfold Matrix.augment at h
  split at h
  · cases h
  · cases e : Matrix.construct (A.rows : Int) ((A.cols : Int) + (B.cols : Int)) 0 with
    | error msg => rw [e, ebind_error] at h; cases h
    | ok M0 =>
        rw [e, ebind_ok, epure_eq_ok] at h
        cases h
        refine wf_of_sameShape
          (foldl_sameShape _ (fun N i => ?_) _ _) (construct_wf e)
        exact sameShape_trans
          (foldl_sameShape _ (fun _ _ => set_sameShape _ _ _ _) _ _)
          (foldl_sameShape _ (fun _ _ => set_sameShape _ _ _ _) _ N)

theorem transpose_wf {A M : Matrix} (h : A.transpose = .ok M) : M.wf := by
  unfold Matrix.transpose at h
  cases e : Matrix.construct (A.cols : Int) (A.rows : Int) 0 with
  | error msg => rw [e, ebind_error] at h; cases h
  | ok M0 =>
      rw [e, ebind_ok, epure_eq_ok] at h
      cases h
      exact wf_of_sameShape
        (foldl_sameShape _
          (fun N i => foldl_sameShape _ (fun _ _ => set_sameShape _ _ _ _) _ N) _ _)
        (construct_wf e)

theorem mul_wf {A B M : Matrix} (h : A.mul B = .ok M) : M.wf := by
  unfold Matrix.mul at h
  split at h
  · cases h
  · cases e : Matrix.construct (A.rows : Int) (B.cols : Int) 0 with
    | error msg => rw [e, ebind_error] at h; cases h
    | ok M0 =>
        rw [e, ebind_ok, epure_eq_ok] at h
        cases h
        exact wf_of_sameShape
          (foldl_sameShape _
            (fun N i => foldl_sameShape _ (fun _ _ => set_sameShape _ _ _ _) _ N) _ _)
          (construct_wf e)

theorem add_wf {A B M : Matrix} (hwf : A.wf) (h : A.add B = .ok M) : M.wf := by
  unfold Matrix.add at h
  split at h
  · cases h
  · cases h
    exact ⟨hwf.1, hwf.2.1, by simpa using hwf.2.2⟩

theorem sub_wf {A B M : Matrix} (hwf : A.wf) (h : A.sub B = .ok M) : M.wf := by
  unfold Matrix.sub at h
  split at h
  · cases h
  · cases h
    exact ⟨hwf.1, hwf.2.1, by simpa using hwf.2.2⟩

theorem smul_wf {A : Matrix} (k : ℚ) (hwf : A.wf) : (A.smul k).wf :=
  ⟨hwf.1, hwf.2.1, by simpa [Matrix.smul] using hwf.2.2⟩

theorem negate_wf {A : Matrix} (hwf : A.wf) : A.negate.wf := smul_wf _ hwf

theorem forwardElimination_wf {A : Matrix} {right : Option Matrix} {flag : Bool}
    {st : ElimState} (hwf : A.wf) (h : A.forwardElimination right flag = .ok st) :
    st.result.wf :=
  wf_of_sameShape (forwardElimination_shape h).1 hwf

theorem gaussianElimination_wf {A : Matrix} {right : Option Matrix} {full : Bool}
    {st : ElimState} (hwf : A.wf) (h : A.gaussianElimination right full = .ok st) :
    st.result.wf :=
  wf_of_sameShape (gaussianElimination_shape h).1 hwf

theorem inverse_wf {A M : Matrix} (h : A.inverse = .ok M) : M.wf := by
  unfold Matrix.inverse at h
  split at h
  · cases h
  · cases e1 : Matrix.identity (A.rows : Int) with
    | error msg => rw [e1, ebind_error] at h; cases h
    | ok I =>
        rw [e1, ebind_ok] at h
        cases e2 : A.augment I with
        | error msg => rw [e2, ebind_error] at h; cases h
        | ok aug =>
            rw [e2, ebind_ok] at h
            cases e3 : aug.gaussianElimination none true with
            | error msg => rw [e3, ebind_error] at h; cases h
            | ok st =>
                rw [e3, ebind_ok] at h
                cases e4 : Matrix.construct (A.rows : Int) (A.cols : Int) 0 with
                | error msg => rw [e4, ebind_error] at h; cases h
                | ok M0 =>
                    rw [e4, ebind_ok, epure_eq_ok] at h
                    cases h
                    exact wf_of_sameShape
                      (foldl_sameShape _
                        (fun N i => foldl_sameShape _
                          (fun _ _ => set_sameShape _ _ _ _) _ N) _ _)
                      (construct_wf e4)

theorem rotate3D_wf {v M : Matrix} {cosF sinF : ℚ → ℚ} {piQ ax ay az : ℚ}
    (h : Matrix.rotate3D v cosF sinF piQ ax ay az = .ok M) : M.wf := by
  unfold Matrix.rotate3D at h
  cases e : Matrix.createRotationMatrix cosF sinF piQ ax ay az with
  | error msg => rw [e, ebind_error] at h; cases h
  | ok rot => rw [e, ebind_ok] at h; exact mul_wf h

/-! Bounds for the rank computation. -/

theorem nonZeroRowCount_le (E : Matrix) : nonZeroRowCount E ≤ E.rows := by
  unfold nonZeroRowCount
  calc ((List.range E.rows).filter _).length ≤ (List.range E.rows).length :=
        List.length_filter_le _ _
    _ = E.rows := List.length_range E.rows

theorem nonZeroColCount_le (E : Matrix) : nonZeroColCount E ≤ E.cols := by
  unfold nonZeroColCount
  calc ((List.range E.cols).filter _).length ≤ (List.range E.cols).length :=
        List.length_filter_le _ _
    _ = E.cols := List.length_range E.cols

theorem toNat_mul_of_pos {a b : Int} (ha : 0 < a) (hb : 0 < b) :
    (a * b).toNat = a.toNat * b.toNat := by
  obtain ⟨m, rfl⟩ := Int.eq_ofNat_of_zero_le (le_of_lt ha)
  obtain ⟨n, rfl⟩ := Int.eq_ofNat_of_zero_le (le_of_lt hb)
  have hmn : ((m : Int) * (n : Int)) = ((m * n : Nat) : Int) := by push_cast; ring
  rw [hmn, Int.toNat_natCast]
  simp

/-- Reading a matrix after the diagonal write loop of `Matrix::identity`:
positions on the written diagonal read 1, the rest is unchanged. -/
theorem get_foldl_diag (l : List Nat) (M : Matrix) (i j : Nat)
    (hi : i < M.rows) (hj : j < M.cols) (hrc : M.rows = M.cols)
    (hlen : M.data.length = M.rows * M.cols)
    (hl : ∀ a ∈ l, a < M.rows) :
    (l.foldl (fun acc k => acc.set k k 1) M).get i j =
      if i = j ∧ i ∈ l then 1 else M.get i j := by
  induction l generalizing M with
  | nil => simp
  | cons a t ih =>
      rw [List.foldl_cons]
      have hlen2 : (M.set a a 1).data.length = M.data.length := by simp [Matrix.set]
      have ha := hl a (List.mem_cons_self a t)
      have hacol : a < M.cols := hrc ▸ ha
      rw [ih (M.set a a 1) hi hj hrc (by rw [hlen2, hlen]; rfl)
        (fun x hx => hl x (List.mem_cons_of_mem a hx))]
      rw [get_set M a a i j 1 hacol hj]
      have hidx : a * M.cols + a < M.data.length := by
        rw [hlen]; exact flatIndex_lt ha hacol
      by_cases hij : i = j
      · subst hij
        by_cases hit : i ∈ t
        · simp [hit]
        · by_cases hia : i = a
          · subst hia
            simp [hit, hidx]
          · simp [hit, hia, List.mem_cons]
      · have hno : ¬(i = a ∧ j = a ∧ a * M.cols + a < M.data.length) := by
          rintro ⟨rfl, rfl, _⟩; exact hij rfl
        simp [hij, hno]

/-- The sign adjustment of the determinant equals plain negation on an odd
swap count, since negation fixes zero. -/
theorem detSign_eq (sc : Nat) (d : ℚ) :
    detSign sc d = if sc % 2 = 1 then -d else d := by
  unfold detSign
  by_cases hodd : sc % 2 = 1
  · rw [if_pos (by omega), if_pos hodd]
    by_cases hz : d = 0
    · rw [if_neg (by simp [hz]), hz, neg_zero]
    · rw [if_pos hz]
  · rw [if_neg (by omega), if_neg hodd]

/-- Inversion principle for a successful solve: the attached vector of a
Unique result is the transformed companion, of the same shape as b; a
non-Unique result carries the default empty matrix. -/
theorem solve_ok_x {A b : Matrix} {r : SolveResult} (hwfb : b.wf)
    (h : A.solve b = .ok r) :
    (r.status = .unique → r.x.rows = A.rows ∧ r.x.cols = 1 ∧ r.x.wf) ∧
    (r.status ≠ .unique → r.x = default) := by
  unfold Matrix.solve at h
  split at h
  · cases h
  · rename_i hg
    push_neg at hg
    obtain ⟨hrows, hcols⟩ := hg
    cases e1 : A.augment b with
    | error msg => rw [e1] at h; cases h
    | ok aug =>
        rw [e1] at h
        dsimp only at h
        by_cases c1 : A.rank < aug.rank
        · rw [if_pos c1] at h
          cases h
          exact ⟨fun habs => absurd habs (by decide), fun _ => rfl⟩
        · rw [if_neg c1] at h
          by_cases c2 : A.rank < A.cols
          · rw [if_pos c2] at h
            cases h
            exact ⟨fun habs => absurd habs (by decide), fun _ => rfl⟩
          · rw [if_neg c2] at h
            cases e2 : A.gaussianElimination (some b) true with
            | error msg => rw [e2] at h; cases h
            | ok st =>
                rw [e2] at h
                cases h
                refine ⟨fun _ => ?_, fun habs => absurd rfl habs⟩
                rcases (gaussianElimination_shape e2).2 with ⟨hn1, hn2⟩ | ⟨R, S, hR, hS, hsh⟩
                · cases hn2
                · cases hS
                  show (st.right.getD default).rows = A.rows ∧
                    (st.right.getD default).cols = 1 ∧ (st.right.getD default).wf
                  rw [hR, Option.getD_some]
                  exact ⟨hsh.1.trans hrows.symm, hsh.2.1.trans hcols,
                    wf_of_sameShape hsh hwfb⟩

/-! The claims. -/

/-- Claim C1, amended: for every A and single-column b with matching row
count (else solve fails with DimensionMismatch), solve returns NoSolution
exactly when rank([A|b]) > rank(A); otherwise Infinite exactly when
rank(A) < cols(A); otherwise it runs full reduction with b as companion and
returns Unique with the transformed companion — unless that reduction
raises Singular, in which case solve fails with Singular.  The three tests
are evaluated in this order.  (Stated under the proviso that the augmented
matrix stays below the construction size ceiling, i.e. augment succeeds.) -/
theorem claim_C1 (A b : Matrix) :
    (¬(A.rows = b.rows ∧ b.cols = 1) → A.solve b = .error .dimensionMismatch) ∧
    (∀ aug, A.rows = b.rows → b.cols = 1 → A.augment b = .ok aug →
      (A.rank < aug.rank → A.solve b = .ok ⟨.noSolution, default⟩) ∧
      (¬A.rank < aug.rank → A.rank < A.cols → A.solve b = .ok ⟨.infinite, default⟩) ∧
      (¬A.rank < aug.rank → ¬A.rank < A.cols →
        A.solve b = match A.gaussianElimination (some b) true with
          | .error e => .error e
          | .ok st => .ok ⟨.unique, st.right.getD default⟩)) := by
  constructor
  · intro h
    have hg : A.rows ≠ b.rows ∨ b.cols ≠ 1 := by tauto
    unfold Matrix.solve
    rw [if_pos hg]
  · intro aug h1 h2 haug
    have hg : ¬(A.rows ≠ b.rows ∨ b.cols ≠ 1) := by simp [h1, h2]
    refine ⟨?_, ?_, ?_⟩
    · intro hlt
      unfold Matrix.solve
      rw [if_neg hg, haug]
      dsimp only
      rw [if_pos hlt]
    · intro hnlt hcols
      unfold Matrix.solve
      rw [if_neg hg, haug]
      dsimp only
      rw [if_neg hnlt, if_pos hcols]
    · intro hnlt hncols
      unfold Matrix.solve
      rw [if_neg hg, haug]
      dsimp only
      rw [if_neg hnlt, if_neg hncols]

/-- Witness for claim C1: a dimension mismatch rejected as the claim
requires. -/
theorem claim_C1_witness :
    Matrix.solve ⟨2, 2, [1, 0, 0, 1]⟩ ⟨3, 1, [1, 2, 3]⟩ =
      .error .dimensionMismatch :=
  (claim_C1 ⟨2, 2, [1, 0, 0, 1]⟩ ⟨3, 1, [1, 2, 3]⟩).1 (by decide)

/-- Counterexample to claim C1 as stated: here rank(A) = rank([A|b]) =
cols(A), so the claim promises a Unique result, but solve fails with
Singular instead (a near-zero diagonal pivot is skipped during the rank
computation yet throws during the solving elimination). -/
theorem claim_C1_counterexample :
    Matrix.rank ⟨3, 3, [1, 5, 7, 0, 0, 3, 0, 0, 4]⟩ = 3 ∧
    (⟨3, 3, [1, 5, 7, 0, 0, 3, 0, 0, 4]⟩ : Matrix).cols = 3 ∧
    Matrix.augment ⟨3, 3, [1, 5, 7, 0, 0, 3, 0, 0, 4]⟩ ⟨3, 1, [1, 1, 1]⟩ =
      .ok ⟨3, 4, [1, 5, 7, 1, 0, 0, 3, 1, 0, 0, 4, 1]⟩ ∧
    Matrix.rank ⟨3, 4, [1, 5, 7, 1, 0, 0, 3, 1, 0, 0, 4, 1]⟩ = 3 ∧
    Matrix.solve ⟨3, 3, [1, 5, 7, 0, 0, 3, 0, 0, 4]⟩ ⟨3, 1, [1, 1, 1]⟩ =
      .error .singular := by
  decide!

/-- Claim C2, amended: when the pivot selected by partial pivoting over
rows [i, rows) of column i has magnitude below EPSILON, a forward-
elimination step fails with Singular when non-singularity is demanded and
otherwise leaves the state completely unchanged; the loop then moves to the
next diagonal position, advancing the row and the column together (the
pivot positions are the diagonal ones, i in [0, min(rows, cols))). -/
theorem claim_C2 :
    (∀ (st : ElimState) (i : Nat),
      |st.result.get (pivotRowAt st.result i i) i| < EPSILON →
        feStep true st i = .error .singular ∧ feStep false st i = .ok st) ∧
    (∀ (A : Matrix) (right : Option Matrix) (flag : Bool),
      A.forwardElimination right flag =
        (List.range (min A.rows A.cols)).foldlM (feStep flag) ⟨A, right, 0⟩) := by
  constructor
  · intro st i h
    constructor <;> (unfold feStep; rw [if_pos h]; rfl)
  · intro A right flag
    rfl

/-- Witness for claim C2 at a concrete near-zero pivot. -/
theorem claim_C2_witness :
    feStep true ⟨⟨2, 2, [0, 1, 0, 1]⟩, none, 0⟩ 0 = .error .singular ∧
    feStep false ⟨⟨2, 2, [0, 1, 0, 1]⟩, none, 0⟩ 0 =
      .ok ⟨⟨2, 2, [0, 1, 0, 1]⟩, none, 0⟩ :=
  claim_C2.1 ⟨⟨2, 2, [0, 1, 0, 1]⟩, none, 0⟩ 0 (by decide!)

/-- Counterexample to claim C2 as stated: on [[0,1],[0,1]] the source
elimination skips column 0 and then pivots at position (1,1), leaving the
matrix unchanged, while the elimination described by the spec sentence
(same row, next column) pivots at (0,1) and eliminates row 1 — the two
results differ, so the next pivot search does not start in the same row. -/
theorem claim_C2_counterexample :
    Matrix.forwardElimination ⟨2, 2, [0, 1, 0, 1]⟩ none false =
      .ok ⟨⟨2, 2, [0, 1, 0, 1]⟩, none, 0⟩ ∧
    forwardEliminationRowHeld ⟨2, 2, [0, 1, 0, 1]⟩ = ⟨2, 2, [0, 1, 0, 0]⟩ ∧
    (⟨2, 2, [0, 1, 0, 1]⟩ : Matrix) ≠ ⟨2, 2, [0, 1, 0, 0]⟩ := by
  refine ⟨by decide!, by decide!, by decide⟩

/-- Claim C3 (confirmed): for every square matrix the determinant is the
product of the diagonal of the echelon form produced by forward elimination
without companion and without demanding non-singularity, snapped to exact
zero within EPSILON and negated exactly when the recorded swap count is
odd; a non-square matrix fails with NotSquare.  (In the exact-rational
model a negative zero does not exist: -0 = 0.) -/
theorem claim_C3 (A : Matrix) :
    (A.rows ≠ A.cols → A.determinant = .error .notSquare) ∧
    (A.rows = A.cols → ∃ st, A.forwardElimination none false = .ok st ∧
      A.determinant = .ok (if st.swapCount % 2 = 1
        then -(snapZero (diagProd st.result A.rows))
        else snapZero (diagProd st.result A.rows))) := by
  constructor
  · intro h
    unfold Matrix.determinant
    rw [if_pos h]
  · intro hsq
    obtain ⟨st, hst⟩ := forwardElimination_noThrow A none
    refine ⟨st, hst, ?_⟩
    have hge : A.gaussianElimination none false = .ok st := by
      unfold Matrix.gaussianElimination
      rw [show (Option.isSome (none : Option Matrix) || false) = false from rfl, hst]
      rfl
    unfold Matrix.determinant
    rw [if_neg (fun hh => hh hsq), hge]
    dsimp only
    rw [detSign_eq]

/-- Witness for claim C3: a non-square matrix is rejected. -/
theorem claim_C3_witness :
    Matrix.determinant ⟨2, 3, [0, 0, 0, 0, 0, 0]⟩ = .error .notSquare :=
  (claim_C3 ⟨2, 3, [0, 0, 0, 0, 0, 0]⟩).1 (by decide)

/-- Claim C4, amended: whenever solve returns Unique, the attached vector
is a well-formed column vector of dimensions rows(A) × 1 (the transformed
copy of b; for the square systems of the Unique branch this does not equal
cols(A) × 1 in general); when the status is not Unique the attached vector
is the default-constructed empty matrix. -/
theorem claim_C4 (A b : Matrix) (hwfb : b.wf) (r : SolveResult)
    (h : A.solve b = .ok r) :
    (r.status = .unique → r.x.rows = A.rows ∧ r.x.cols = 1 ∧ r.x.wf) ∧
    (r.status ≠ .unique → r.x = default) :=
  solve_ok_x hwfb h

/-- Witness for claim C4 at the unique-solution example of the test
suite. -/
theorem claim_C4_witness :
    (⟨2, 1, [0, 1]⟩ : Matrix).rows = (⟨2, 2, [2, 1, 1, 1]⟩ : Matrix).rows ∧
    (⟨2, 1, [0, 1]⟩ : Matrix).cols = 1 ∧ (⟨2, 1, [0, 1]⟩ : Matrix).wf :=
  (claim_C4 ⟨2, 2, [2, 1, 1, 1]⟩ ⟨2, 1, [1, 1]⟩ (by decide)
    ⟨.unique, ⟨2, 1, [0, 1]⟩⟩ (by decide!)).1 rfl

/-- Counterexample to claim C4 as stated: for the consistent full-column-
rank system with A of shape 2×1, solve returns Unique with a 2×1 vector,
not the claimed cols(A) × 1 = 1×1. -/
theorem claim_C4_counterexample :
    Matrix.solve ⟨2, 1, [1, 0]⟩ ⟨2, 1, [5, 0]⟩ =
      .ok ⟨.unique, ⟨2, 1, [5, 0]⟩⟩ ∧
    (⟨2, 1, [1, 0]⟩ : Matrix).cols = 1 ∧
    (⟨2, 1, [5, 0]⟩ : Matrix).rows = 2 := by
  refine ⟨by decide!, rfl, rfl⟩

/-- Claim C5 (confirmed): construction fails with InvalidDimensions for a
non-positive dimension, fails with TooLarge exactly when rows*cols reaches
10,000,000, and otherwise succeeds with every element equal to the fill
value. -/
theorem claim_C5 (rows cols : Int) (fill : ℚ) :
    ((rows ≤ 0 ∨ cols ≤ 0) →
      Matrix.construct rows cols fill = .error .invalidDimensions) ∧
    (0 < rows → 0 < cols → 10000000 ≤ rows * cols →
      Matrix.construct rows cols fill = .error .tooLarge) ∧
    (0 < rows → 0 < cols → rows * cols < 10000000 →
      ∃ M, Matrix.construct rows cols fill = .ok M ∧
        M.rows = rows.toNat ∧ M.cols = cols.toNat ∧
        ∀ r c, r < M.rows → c < M.cols → M.get r c = fill) := by
  refine ⟨?_, ?_, ?_⟩
  · intro h
    unfold Matrix.construct
    rw [if_pos h]
  · intro hr hc hge
    unfold Matrix.construct MATRIX_LIMIT_ERROR
    rw [if_neg (by push_neg; exact ⟨hr, hc⟩), if_pos hge]
  · intro hr hc hlt
    have hok : Matrix.construct rows cols fill =
        .ok ⟨rows.toNat, cols.toNat, List.replicate (rows * cols).toNat fill⟩ := by
      unfold Matrix.construct
      rw [if_neg (by push_neg; exact ⟨hr, hc⟩),
        if_neg (show ¬MATRIX_LIMIT_ERROR ≤ rows * cols from by unfold MATRIX_LIMIT_ERROR; omega)]
    refine ⟨_, hok, rfl, rfl, ?_⟩
    intro r c hrr hcc
    show (List.replicate (rows * cols).toNat fill).getD (r * cols.toNat + c) 0 = fill
    rw [getD_replicate_list, if_pos]
    rw [toNat_mul_of_pos hr hc]
    exact flatIndex_lt hrr hcc

/-- Witness for claim C5: both failure modes at concrete inputs. -/
theorem claim_C5_witness :
    Matrix.construct 0 3 5 = .error .invalidDimensions ∧
    Matrix.construct 5000 2000 5 = .error .tooLarge :=
  ⟨(claim_C5 0 3 5).1 (Or.inl (by decide)),
   (claim_C5 5000 2000 5).2.1 (by decide) (by decide) (by decide)⟩

/-- Claim C6, amended: every matrix returned by the public operations is
well formed (positive dimensions, buffer of exactly rows*cols elements) —
except the placeholder vector carried inside a non-Unique SolveResult,
which is the default-constructed empty 0×0 matrix and violates the
invariant; the vector of a Unique result is well formed. -/
theorem claim_C6 :
    (∀ (rows cols : Int) (v : ℚ) (M : Matrix),
      Matrix.construct rows cols v = .ok M → M.wf) ∧
    (∀ (size : Int) (M : Matrix), Matrix.identity size = .ok M → M.wf) ∧
    (∀ A B M : Matrix, Matrix.augment A B = .ok M → M.wf) ∧
    (∀ A M : Matrix, Matrix.transpose A = .ok M → M.wf) ∧
    (∀ A B M : Matrix, A.wf → Matrix.add A B = .ok M → M.wf) ∧
    (∀ A B M : Matrix, A.wf → Matrix.sub A B = .ok M → M.wf) ∧
    (∀ (A : Matrix) (k : ℚ), A.wf → (A.smul k).wf) ∧
    (∀ A : Matrix, A.wf → A.negate.wf) ∧
    (∀ A B M : Matrix, Matrix.mul A B = .ok M → M.wf) ∧
    (∀ (A : Matrix) (right : Option Matrix) (flag : Bool) (st : ElimState),
      A.wf → A.forwardElimination right flag = .ok st → st.result.wf) ∧
    (∀ (A : Matrix) (right : Option Matrix) (full : Bool) (st : ElimState),
      A.wf → A.gaussianElimination right full = .ok st → st.result.wf) ∧
    (∀ A M : Matrix, Matrix.inverse A = .ok M → M.wf) ∧
    (∀ (v : Matrix) (cosF sinF : ℚ → ℚ) (piQ ax ay az : ℚ) (M : Matrix),
      Matrix.rotate3D v cosF sinF piQ ax ay az = .ok M → M.wf) ∧
    (∀ (A b : Matrix) (r : SolveResult), b.wf → A.solve b = .ok r →
      (r.status = .unique → r.x.wf) ∧
      (r.status ≠ .unique → r.x = default ∧ ¬r.x.wf)) := by
  refine ⟨fun _ _ _ _ h => construct_wf h,
    fun _ _ h => identity_wf h,
    fun _ _ _ h => augment_wf h,
    fun _ _ h => transpose_wf h,
    fun _ _ _ hw h => add_wf hw h,
    fun _ _ _ hw h => sub_wf hw h,
    fun _ k hw => smul_wf k hw,
    fun _ hw => negate_wf hw,
    fun _ _ _ h => mul_wf h,
    fun _ _ _ _ hw h => forwardElimination_wf hw h,
    fun _ _ _ _ hw h => gaussianElimination_wf hw h,
    fun _ _ h => inverse_wf h,
    fun _ _ _ _ _ _ _ _ h => rotate3D_wf h,
    fun A b r hwfb h => ?_⟩
  have hx := solve_ok_x hwfb h
  exact ⟨fun hs => (hx.1 hs).2.2,
    fun hs => ⟨hx.2 hs, by rw [hx.2 hs]; decide⟩⟩

/-- Witness for claim C6: the sized constructor yields a well-formed
matrix at a concrete input. -/
theorem claim_C6_witness : Matrix.wf ⟨2, 2, List.replicate 4 0⟩ :=
  claim_C6.1 2 2 0 ⟨2, 2, List.replicate 4 0⟩ (by decide!)

/-- Counterexample to claim C6 as stated: the vector carried inside the
NoSolution result of the spec's own example is the 0×0 default matrix,
which is observable at the public interface and violates the invariant. -/
theorem claim_C6_counterexample :
    Matrix.solve ⟨2, 2, [1, 1, 1, 1]⟩ ⟨2, 1, [1, 2]⟩ =
      .ok ⟨.noSolution, ⟨0, 0, []⟩⟩ ∧
    ¬(⟨0, 0, []⟩ : Matrix).wf := by
  refine ⟨by decide!, by decide⟩

/-- Claim C7, amended: the rank of an m×n matrix lies in [0, min(m, n)].
The second half of the original claim — a duplicated row forces rank below
full rank — does not hold of the code (see the counterexample). -/
theorem claim_C7 (A : Matrix) : 0 ≤ A.rank ∧ A.rank ≤ min A.rows A.cols := by
  refine ⟨Nat.zero_le _, ?_⟩
  unfold Matrix.rank
  cases e : A.forwardElimination none false with
  | error msg => exact Nat.zero_le _
  | ok st =>
      have hs := (forwardElimination_shape e).1
      have h1 : nonZeroRowCount st.result ≤ A.rows :=
        hs.1 ▸ nonZeroRowCount_le st.result
      have h2 : nonZeroColCount st.result ≤ A.cols :=
        hs.2.1 ▸ nonZeroColCount_le st.result
      exact min_le_min h1 h2

/-- Counterexample to claim C7 as stated: the 2×3 matrix [[0,1,1],[0,1,1]]
has its two rows identical, yet the code reports rank 2 = min(2,3) — full
rank (the skipped zero column is compensated by the column count, but two
echelon rows keep entries above EPSILON). -/
theorem claim_C7_counterexample :
    (⟨2, 3, [0, 1, 1, 0, 1, 1]⟩ : Matrix).get 0 0 =
      (⟨2, 3, [0, 1, 1, 0, 1, 1]⟩ : Matrix).get 1 0 ∧
    (⟨2, 3, [0, 1, 1, 0, 1, 1]⟩ : Matrix).get 0 1 =
      (⟨2, 3, [0, 1, 1, 0, 1, 1]⟩ : Matrix).get 1 1 ∧
    (⟨2, 3, [0, 1, 1, 0, 1, 1]⟩ : Matrix).get 0 2 =
      (⟨2, 3, [0, 1, 1, 0, 1, 1]⟩ : Matrix).get 1 2 ∧
    Matrix.rank ⟨2, 3, [0, 1, 1, 0, 1, 1]⟩ = 2 ∧
    min (⟨2, 3, [0, 1, 1, 0, 1, 1]⟩ : Matrix).rows
      (⟨2, 3, [0, 1, 1, 0, 1, 1]⟩ : Matrix).cols = 2 := by
  decide!

/-- Claim C8, amended: identity(size) fails with InvalidDimensions for
size ≤ 0; for positive size it fails with TooLarge when size*size reaches
10,000,000 (a failure mode the original claim excluded), and otherwise
produces the size×size matrix with 1.0 on the diagonal and 0.0
elsewhere. -/
theorem claim_C8 (size : Int) :
    (size ≤ 0 → Matrix.identity size = .error .invalidDimensions) ∧
    (0 < size → 10000000 ≤ size * size →
      Matrix.identity size = .error .tooLarge) ∧
    (0 < size → size * size < 10000000 →
      ∃ M, Matrix.identity size = .ok M ∧
        M.rows = size.toNat ∧ M.cols = size.toNat ∧
        ∀ i j, i < M.rows → j < M.cols →
          M.get i j = if i = j then 1 else 0) := by
  refine ⟨?_, ?_, ?_⟩
  · intro h
    unfold Matrix.identity
    rw [if_pos h]
  · intro hpos hge
    have he : Matrix.construct size size 0 = .error .tooLarge := by
      unfold Matrix.construct MATRIX_LIMIT_ERROR
      rw [if_neg (by push_neg; exact ⟨hpos, hpos⟩), if_pos hge]
    unfold Matrix.identity
    rw [if_neg (by omega), he, ebind_error]
  · intro hpos hlt
    have hok : Matrix.construct size size 0 =
        .ok ⟨size.toNat, size.toNat, List.replicate (size * size).toNat 0⟩ := by
      unfold Matrix.construct
      rw [if_neg (by push_neg; exact ⟨hpos, hpos⟩),
        if_neg (show ¬MATRIX_LIMIT_ERROR ≤ size * size from by
          unfold MATRIX_LIMIT_ERROR; omega)]
    have hid : Matrix.identity size = .ok ((List.range size.toNat).foldl
        (fun acc i => acc.set i i 1)
        ⟨size.toNat, size.toNat, List.replicate (size * size).toNat 0⟩) := by
      unfold Matrix.identity
      rw [if_neg (by omega), hok, ebind_ok, epure_eq_ok]
    refine ⟨_, hid, ?_, ?_, ?_⟩
    · exact ((foldl_sameShape _ (fun _ _ => set_sameShape _ _ _ _) _ _).1 :)
    · exact ((foldl_sameShape _ (fun _ _ => set_sameShape _ _ _ _) _ _).2.1 :)
    · intro i j hi hj
      have hi2 : i < size.toNat :=
        lt_of_lt_of_le hi (le_of_eq
          (foldl_sameShape _ (fun _ _ => set_sameShape _ _ _ _) _ _).1)
      have hj2 : j < size.toNat :=
        lt_of_lt_of_le hj (le_of_eq
          (foldl_sameShape _ (fun _ _ => set_sameShape _ _ _ _) _ _).2.1)
      rw [get_foldl_diag (List.range size.toNat)
        ⟨size.toNat, size.toNat, List.replicate (size * size).toNat 0⟩ i j
        hi2 hj2 rfl
        (by show (List.replicate (size * size).toNat (0:ℚ)).length = _
            rw [List.length_replicate, toNat_mul_of_pos hpos hpos])
        (fun a haa => List.mem_range.mp haa)]
      have hbase : (⟨size.toNat, size.toNat,
          List.replicate (size * size).toNat 0⟩ : Matrix).get i j = 0 := by
        show (List.replicate (size * size).toNat (0:ℚ)).getD _ 0 = 0
        rw [getD_replicate_list]
        split <;> rfl
      rw [hbase]
      by_cases hij : i = j
      · rw [if_pos ⟨hij, List.mem_range.mpr hi2⟩, if_pos hij]
      · rw [if_neg (fun hh => hij hh.1), if_neg hij]

/-- Witness for claim C8: the three behaviours at concrete sizes. -/
theorem claim_C8_witness :
    Matrix.identity (-1) = .error .invalidDimensions ∧
    Matrix.identity 4000 = .error .tooLarge :=
  ⟨(claim_C8 (-1)).1 (by decide), (claim_C8 4000).2.1 (by decide) (by decide)⟩

/-- Counterexample to claim C8 as stated: identity(3163) fails with
TooLarge although 3163 > 0, so InvalidDimensions is not the only failure
mode. -/
theorem claim_C8_counterexample :
    (0 : Int) < 3163 ∧ Matrix.identity 3163 = .error .tooLarge := by
  refine ⟨by decide, by decide!⟩

/-- Modelled from the spec (for claim C9): the standard right-handed
rotation matrix about the X axis, written on the cosine and sine of the
angle. -/
def RxStd (c s : ℚ) : Matrix :=
  ⟨3, 3, [1, 0, 0,
          0, c, -s,
          0, s, c]⟩

/-- Modelled from the spec (for claim C9): the standard right-handed
rotation matrix about the Y axis. -/
def RyStd (c s : ℚ) : Matrix :=
  ⟨3, 3, [c, 0, s,
          0, 1, 0,
          -s, 0, c]⟩

/-- Modelled from the spec (for claim C9): the standard right-handed
rotation matrix about the Z axis. -/
def RzStd (c s : ℚ) : Matrix :=
  ⟨3, 3, [c, -s, 0,
          s, c, 0,
          0, 0, 1]⟩

theorem ebind_assoc {e a b c : Type} (x : Except e a) (f : a → Except e b)
    (g : b → Except e c) : ((x >>= f) >>= g) = x >>= fun y => f y >>= g := by
  cases x <;> rfl

set_option maxHeartbeats 1000000 in
/-- Claim C9 (confirmed): for every 3×1 column vector and all angles,
rotate3D equals the product (Rz · Ry · Rx) · v of the standard right-handed
rotation matrices built on the angles converted to radians (degrees times
π over 180), composed so that the X rotation applies first; cos, sin and π
are arbitrary interpretations of the transcendental functions. -/
theorem claim_C9 (cosF sinF : ℚ → ℚ) (piQ ax ay az : ℚ) (v : Matrix)
    (h3 : v.rows = 3) (h1 : v.cols = 1) :
    (∃ w, Matrix.rotate3D v cosF sinF piQ ax ay az = .ok w) ∧
    Matrix.rotate3D v cosF sinF piQ ax ay az =
      (do
        let zy ← (RzStd (cosF (az * piQ / 180)) (sinF (az * piQ / 180))).mul
          (RyStd (cosF (ay * piQ / 180)) (sinF (ay * piQ / 180)))
        let zyx ← zy.mul (RxStd (cosF (ax * piQ / 180)) (sinF (ax * piQ / 180)))
        zyx.mul v) := by
  constructor
  · obtain ⟨rows, cols, data⟩ := v
    have h3a : rows = 3 := h3
    have h1a : cols = 1 := h1
    subst h3a h1a
    exact ⟨_, rfl⟩
  · exact ebind_assoc
      ((Matrix.ZRotationMatrix cosF sinF piQ az).mul
        (Matrix.YRotationMatrix cosF sinF piQ ay))
      (fun zy => zy.mul (Matrix.XRotationMatrix cosF sinF piQ ax))
      (fun rotation => rotation.mul v)

/-- Witness for claim C9 at a concrete vector and interpretation of the
trigonometric functions. -/
theorem claim_C9_witness :
    Matrix.rotate3D ⟨3, 1, [1, 0, 0]⟩ (fun _ => 0) (fun _ => 1) 180 0 0 90 =
      (do
        let zy ← (RzStd 0 1).mul (RyStd 0 1)
        let zyx ← zy.mul (RxStd 0 1)
        zyx.mul (⟨3, 1, [1, 0, 0]⟩ : Matrix)) :=
  (claim_C9 (fun _ => 0) (fun _ => 1) 180 0 0 90 ⟨3, 1, [1, 0, 0]⟩ rfl rfl).2

set_option maxHeartbeats 1000000 in
/-- Claim C10 (code bug): at this input rank(A) = rank([A|b]) = cols(A)
holds, so solve reaches its Unique branch, yet the full reduction demanded
there raises Singular — the zero-pivot error branch is reachable under the
precondition, contradicting solve's own documentation, which lists only
DimensionMismatch. -/
theorem claim_C10_theorem :
    Matrix.rank ⟨3, 3, [1, 5, 7, 0, 0, 3, 0, 0, 4]⟩ = 3 ∧
    (⟨3, 3, [1, 5, 7, 0, 0, 3, 0, 0, 4]⟩ : Matrix).cols = 3 ∧
    Matrix.augment ⟨3, 3, [1, 5, 7, 0, 0, 3, 0, 0, 4]⟩ ⟨3, 1, [1, 2, 3]⟩ =
      .ok ⟨3, 4, [1, 5, 7, 1, 0, 0, 3, 2, 0, 0, 4, 3]⟩ ∧
    Matrix.rank ⟨3, 4, [1, 5, 7, 1, 0, 0, 3, 2, 0, 0, 4, 3]⟩ = 3 ∧
    Matrix.gaussianElimination ⟨3, 3, [1, 5, 7, 0, 0, 3, 0, 0, 4]⟩
      (some ⟨3, 1, [1, 2, 3]⟩) true = .error .singular ∧
    Matrix.solve ⟨3, 3, [1, 5, 7, 0, 0, 3, 0, 0, 4]⟩ ⟨3, 1, [1, 2, 3]⟩ =
      .error .singular := by
  decide!

end MatrixSpec
